import Mathlib

/-!
Verification development for the ETF exposure scanner
(`src/etf_scanner_yf.py`).

Shallow embedding conventions: Python strings are lists of characters
(`Str`), pandas DataFrames are lists of rows, HTTP traffic is an oracle
from symbol to outcome, and the interactive side effects (`st.warning`,
`st.error`, rendering) are explicit values.
-/

/-- Python strings are modelled as lists of characters. -/
abbrev Str : Type := List Char

/-- Model of Python `str.upper` (per-character ASCII case mapping, which is
exactly Lean's `Char.toUpper`). -/
def pyUpper (s : Str) : Str := s.map Char.toUpper

/-- Model of Python `str.lower` (per-character ASCII case mapping). -/
def pyLower (s : Str) : Str := s.map Char.toLower

/-- Leading-whitespace removal, one half of Python `str.strip`. -/
def stripLeft (s : Str) : Str := s.dropWhile Char.isWhitespace

/-- Model of Python `str.strip`: drop leading and trailing whitespace. -/
def pyStrip (s : Str) : Str :=
  ((stripLeft s).reverse.dropWhile Char.isWhitespace).reverse

/-- Model of Python `text.split(sep)` for a one-character separator: the
list of (possibly empty) segments between occurrences of `sep`; the empty
string yields one empty segment, as in Python. -/
def splitOnChar (sep : Char) : Str → List Str
  | [] => [[]]
  | c :: rest =>
    if c = sep then [] :: splitOnChar sep rest
    else
      match splitOnChar sep rest with
      | [] => [[c]]
      | t :: ts => (c :: t) :: ts

/-- Model of Python `sep.join(tokens)` for a one-character separator. -/
def joinOnChar (sep : Char) : List Str → Str
  | [] => []
  | [t] => t
  | t :: t2 :: ts => t ++ sep :: joinOnChar sep (t2 :: ts)

/-- Substring containment, Python's `needle in haystack` on strings. -/
def hasSeg (p : Str) : Str → Bool
  | [] => decide (p = [])
  | c :: rest => List.isPrefixOf p (c :: rest) || hasSeg p rest

/-- Embedding of `parse_tickers` (src lines 44-47): split the input on
commas, keep the segments whose strip is non-empty, and yield each kept
segment stripped and uppercased, in order. -/
def parse_tickers (text : Str) : List Str :=
  if text = [] then []
  else
    ((splitOnChar ',' text).filter fun t => pyStrip t ≠ []).map
      fun t => pyUpper (pyStrip t)

/-- Raw HTML table as returned by `pd.read_html`: column labels and
string-valued rows. The MultiIndex flattening of src lines 96-100 is
modelled as already-flat string labels, since no claim depends on it. -/
structure RawTable where
  columns : List Str
  rows : List (List Str)
deriving DecidableEq

/-- The `col_map` dictionary of src lines 103-109: one optional source
column name per canonical target field, fields listed in the dictionary's
insertion order. -/
structure ColMap where
  ticker : Option Str
  etf : Option Str
  category : Option Str
  expense : Option Str
  weighting : Option Str
deriving DecidableEq

/-- One step of the column-matching loop of src lines 111-122: the Python
`if/elif` chain, first match wins per target field, and a column consumed
by no branch leaves the map unchanged. `n` is `col.strip().lower()`. -/
def updateColMap (m : ColMap) (col : Str) : ColMap :=
  let n := pyLower (pyStrip col)
  if hasSeg "ticker".data n ∧ m.ticker = none then { m with ticker := some col }
  else if n = "etf".data ∧ m.etf = none then { m with etf := some col }
  else if hasSeg "database category".data n ∧ m.category = none then
    { m with category := some col }
  else if hasSeg "expense".data n ∧ m.expense = none then
    { m with expense := some col }
  else if hasSeg "weight".data n ∧ m.weighting = none then
    { m with weighting := some col }
  else m

/-- Column matching over all source columns (the loop of src lines
111-122), starting from the all-`None` dictionary. -/
def matchColumns (cols : List Str) : ColMap :=
  cols.foldl updateColMap ⟨none, none, none, none, none⟩

/-- The identified source columns in canonical dictionary order
(`keep_real_cols`, src line 125). -/
def keepRealCols (m : ColMap) : List Str :=
  [m.ticker, m.etf, m.category, m.expense, m.weighting].filterMap id

/-- One row of the normalized DataFrame: the canonical columns of src lines
103-109 plus the attached `stock` column (src line 151). A canonical column
that was never matched is `none` in every row, matching its absence from
the pandas DataFrame. -/
structure NRow where
  stock : Str
  ticker : Option Str
  etf : Option Str
  category : Option Str
  expense : Option Str
  weighting : Option Str
deriving DecidableEq

/-- Value of the (first) column named by `oc` in row `r` of table `t`, as
pandas label-based selection; `none` when the column is absent or the row
is ragged. -/
def cellAt (t : RawTable) (r : List Str) (oc : Option Str) : Option Str :=
  oc.bind fun c => (t.columns.indexOf? c).bind fun i => r[i]?

/-- Row predicate of src line 142: keep rows whose `Ticker` cell does not
uppercase to the literal header token. pandas `astype(str)` is the identity
on a present string cell in this model; an absent cell is kept (its
`astype(str)` form "nan" never uppercases to "TICKER"). -/
def tickerRowKeep (c : Option Str) : Bool :=
  match c with
  | none => true
  | some v => decide (pyUpper v ≠ "TICKER".data)

/-- Column selection and rename (src lines 130-138) applied to every source
row, with the queried symbol attached. The `stock` column is attached here
rather than at src line 151; no intermediate step reads it, so the result
is the same. -/
def selectRows (t : RawTable) (m : ColMap) (symbol : Str) : List NRow :=
  t.rows.map fun r =>
    { stock := pyUpper symbol
      ticker := cellAt t r m.ticker
      etf := cellAt t r m.etf
      category := cellAt t r m.category
      expense := cellAt t r m.expense
      weighting := cellAt t r m.weighting }

/-- Repeated-header removal (src lines 141-142), applied only when a
`Ticker` column was identified. -/
def deheadRows (m : ColMap) (rows : List NRow) : List NRow :=
  if m.ticker = none then rows
  else rows.filter fun row => tickerRowKeep row.ticker

/-- Whitespace cleanup of the two textual columns (src lines 145-148). The
Python guards on column presence are modelled by `Option.map`, which leaves
an absent (`none`) column unchanged. -/
def cleanRows (rows : List NRow) : List NRow :=
  rows.map fun row =>
    { row with
      expense := row.expense.map pyStrip
      weighting := row.weighting.map pyStrip }

/-- Embedding of the normalization part of `get_stock_etf_exposure_etfdb`
(src lines 94-158): match columns, select and rename them, drop repeated
header rows, strip whitespace on the textual columns, and attach the
queried symbol. Returns `none` on the no-identifiable-columns path of src
lines 126-128. -/
def normalizeTable (t : RawTable) (symbol : Str) : Option (List NRow) :=
  let m := matchColumns t.columns
  if keepRealCols m = [] then none
  else some (cleanRows (deheadRows m (selectRows t m symbol)))

/-- Outcome of `requests.get` on a per-symbol URL, as seen by the script:
either the call raises (transport failure carrying a message), or a
response arrives with an HTTP status code and a body whose `pd.read_html`
parse is `none` (the ValueError raised when no tables are found) or the
list of parsed tables. -/
inductive HttpResult where
  | failure (msg : Str)
  | response (status : Nat) (tables : Option (List RawTable))
deriving DecidableEq

/-- The user-visible diagnostics the script can emit while scanning, one
constructor per `st.warning` call site. -/
inductive Warning where
  | fetchFailed (symbol : Str) (msg : Str)
  | httpStatusError (symbol : Str) (status : Nat)
  | noTables (symbol : Str)
  | noColumns (symbol : Str)
  | noETFFound (symbol : Str)
deriving DecidableEq

/-- Behaviour of `Response.raise_for_status`: an exception is raised
exactly for 4xx and 5xx status codes. -/
def raiseForStatus (status : Nat) : Bool :=
  decide (400 ≤ status) && decide (status < 600)

/-- Embedding of `get_stock_etf_exposure_etfdb` (src lines 50-158), with
the HTTP world supplied as an oracle from symbol to outcome. Returns the
emitted warnings and the resulting rows; every failure path yields an
empty row list, and the function is total (no exception escapes). -/
def get_stock_etf_exposure_etfdb (http : Str → HttpResult) (symbol : Str) :
    List Warning × List NRow :=
  match http symbol with
  | .failure msg => ([.fetchFailed symbol msg], [])
  | .response status tables =>
    if raiseForStatus status then ([.httpStatusError symbol status], [])
    else
      match tables with
      | none => ([.noTables symbol], [])
      | some [] => ([.noTables symbol], [])
      | some (t :: _) =>
        match normalizeTable t symbol with
        | none => ([.noColumns symbol], [])
        | some rows => ([], rows)

/-- Embedding of `build_exposure` (src lines 161-177): fetch per symbol in
order, emit a warning for each symbol whose result is empty, and
concatenate the non-empty results (`pd.concat`); when every result is
empty the concatenation is the empty DataFrame. -/
def build_exposure (http : Str → HttpResult) : List Str → List Warning × List NRow
  | [] => ([], [])
  | s :: rest =>
    let out := get_stock_etf_exposure_etfdb http s
    let outRest := build_exposure http rest
    (out.1 ++ (if out.2 = [] then [.noETFFound s] else []) ++ outRest.1,
     out.2 ++ outRest.2)

/-- The result panel rendered by the main handler (src lines 195-221). -/
inductive ScanView where
  | errorNoStocks
  | noUsableResults (warnings : List Warning)
  | resultsTable (warnings : List Warning) (rows : List NRow)
deriving DecidableEq

/-- Embedding of the `run_scan` handler (src lines 195-221): an error when
the ticker list is empty, the "Aucun résultat exploitable" warning state
when the consolidated DataFrame is empty, and the rendered table
otherwise. -/
def run_scan (http : Str → HttpResult) (stocksList : List Str) : ScanView :=
  if stocksList = [] then .errorNoStocks
  else
    let out := build_exposure http stocksList
    if out.2 = [] then .noUsableResults out.1 else .resultsTable out.1 out.2

/-- Code-point comparison of Python string `<`: lexicographic, a proper
shorter prefix sorting first. -/
def strLt : Str → Str → Bool
  | [], [] => false
  | [], _ :: _ => true
  | _ :: _, [] => false
  | a :: as, b :: bs =>
    decide (a.toNat < b.toNat) || (decide (a.toNat = b.toNat) && strLt as bs)

/-- Nonstrict companion of `strLt`, the order in which sortedness of the
merged ticker list is stated. -/
def strLe (a b : Str) : Prop := strLt a b = true ∨ a = b

instance : DecidableRel strLe := fun _ _ => inferInstanceAs (Decidable (_ ∨ _))

/-- Model of Python `sorted` applied to `set(...)` of strings: a sort of
the deduplicated list. `strLe` is total, transitive and antisymmetric on
the deduplicated input, so the sorted list is unique and any correct sort,
`sorted` included, produces it. -/
def pySortedSet (l : List Str) : List Str := List.insertionSort strLe l.dedup

/-- Embedding of the CSV upload merge (src lines 184-193): the uploaded
`symbol` column values are read as strings and uppercased (`astype(str)
.str.upper()`, no strip), appended to the manual list, deduplicated with
set semantics and sorted. -/
def mergeUpload (stocksList : List Str) (csvSymbols : List Str) : List Str :=
  pySortedSet (stocksList ++ csvSymbols.map pyUpper)

/-- Definition following the spec's words (§4.1): the ordered sequence of
non-empty, whitespace-trimmed, uppercased comma-separated tokens of the
input. Stated for comparison with `parse_tickers`. -/
def specTickerTokens (s : Str) : List Str :=
  ((splitOnChar ',' s).map fun t => pyUpper (pyStrip t)).filter fun t => t ≠ []

/-- Definition following the spec's words (§6): a successful HTTP status is
a 2xx status. -/
def specIsSuccessStatus (status : Nat) : Prop := 200 ≤ status ∧ status < 300

instance (status : Nat) : Decidable (specIsSuccessStatus status) :=
  inferInstanceAs (Decidable (_ ∧ _))

/-- Decimal digit test for the spec-side weight reading. -/
def allDigits (s : Str) : Bool :=
  s.all fun c => decide (48 ≤ c.toNat) && decide (c.toNat ≤ 57)

/-- Numeric value of a string of decimal digits. -/
def digitsToNat (s : Str) : Nat :=
  s.foldl (fun acc c => 10 * acc + (c.toNat - 48)) 0

/-- Removal of one trailing percent sign, for the spec-side weight reading. -/
def dropPercentSign (s : Str) : Str :=
  match s.reverse with
  | '%' :: r => r.reverse
  | _ => s

/-- Definition following the spec's words (§3): the display text of a
weight cell denotes a floating-point number in [0,100] — after stripping
whitespace and an optional percent sign, decimal digits with at most one
decimal point, of value at most 100. -/
def specDenotesWeightInRange (s : Str) : Bool :=
  let u := dropPercentSign (pyStrip s)
  match splitOnChar '.' u with
  | [a] => allDigits a && decide (a ≠ []) && decide (digitsToNat a ≤ 100)
  | [a, b] =>
    allDigits a && allDigits b && decide (a ++ b ≠ []) &&
      (decide (digitsToNat a < 100) ||
        (decide (digitsToNat a ≤ 100) && b.all fun c => decide (c = '0')))
  | _ => false

/-! ## Character-level facts -/

/-- Characters with equal code points are equal. -/
theorem char_toNat_inj {a b : Char} (h : a.toNat = b.toNat) : a = b :=
  Char.eq_of_val_eq (UInt32.toNat.inj h)

/-- Code point of `Char.ofNat` below the surrogate range. -/
theorem charOfNat_toNat {n : Nat} (h : n < 55296) : (Char.ofNat n).toNat = n := by
  unfold Char.ofNat
  rw [dif_pos (Or.inl h)]
  simp [Char.ofNatAux, Char.toNat, UInt32.toNat]

/-- Uppercasing a lowercase ASCII letter subtracts 32 from its code point. -/
theorem toUpper_toNat_of_lower {c : Char} (h1 : 97 ≤ c.toNat) (h2 : c.toNat ≤ 122) :
    (Char.toUpper c).toNat = c.toNat - 32 := by
  unfold Char.toUpper
  rw [if_pos ⟨h1, h2⟩]
  exact charOfNat_toNat (by omega)

/-- Uppercasing fixes every character that is not a lowercase ASCII letter. -/
theorem toUpper_of_not_lower {c : Char} (h : ¬(97 ≤ c.toNat ∧ c.toNat ≤ 122)) :
    Char.toUpper c = c := by
  unfold Char.toUpper
  exact if_neg h

/-- Characters with code points 33 and above are not whitespace. -/
theorem not_whitespace_of_ge_33 {c : Char} (h : 33 ≤ c.toNat) :
    c.isWhitespace = false := by
  unfold Char.isWhitespace
  simp only [Bool.or_eq_false_iff, decide_eq_false_iff_not]
  refine ⟨⟨⟨?_, ?_⟩, ?_⟩, ?_⟩ <;> intro he <;> subst he <;> exact absurd h (by decide)

/-- Uppercasing preserves whitespace-ness of a character. -/
theorem toUpper_isWhitespace (c : Char) :
    (Char.toUpper c).isWhitespace = c.isWhitespace := by
  by_cases h : 97 ≤ c.toNat ∧ c.toNat ≤ 122
  · have hu := toUpper_toNat_of_lower h.1 h.2
    rw [not_whitespace_of_ge_33 (c := c) (by omega),
      not_whitespace_of_ge_33 (by omega)]
  · rw [toUpper_of_not_lower h]

/-- Uppercasing characters is idempotent. -/
theorem toUpper_toUpper (c : Char) :
    Char.toUpper (Char.toUpper c) = Char.toUpper c := by
  by_cases h : 97 ≤ c.toNat ∧ c.toNat ≤ 122
  · have hu := toUpper_toNat_of_lower h.1 h.2
    exact toUpper_of_not_lower (by omega)
  · rw [toUpper_of_not_lower h, toUpper_of_not_lower h]

/-- Uppercasing never produces a comma from a non-comma. -/
theorem toUpper_ne_comma {c : Char} (h : c ≠ ',') : Char.toUpper c ≠ ',' := by
  by_cases hl : 97 ≤ c.toNat ∧ c.toNat ≤ 122
  · have hu := toUpper_toNat_of_lower hl.1 hl.2
    intro he
    rw [he] at hu
    have h44 : (',' : Char).toNat = 44 := rfl
    omega
  · rw [toUpper_of_not_lower hl]; exact h

/-! ## String-level facts -/

/-- Dropping while a predicate holds is idempotent. -/
theorem dropWhile_idem {α : Type} (p : α → Bool) (l : List α) :
    List.dropWhile p (List.dropWhile p l) = List.dropWhile p l := by
  induction l with
  | nil => rfl
  | cons a t ih =>
    by_cases h : p a
    · simp [List.dropWhile_cons, h, ih]
    · simp [List.dropWhile_cons, h]

/-- The head surviving `dropWhile` falsifies the predicate. -/
theorem dropWhile_head_false {α : Type} {p : α → Bool} {l t : List α} {c : α}
    (h : List.dropWhile p l = c :: t) : p c = false := by
  induction l with
  | nil => simp at h
  | cons a l ih =>
    rw [List.dropWhile_cons] at h
    by_cases ha : p a
    · rw [if_pos ha] at h
      exact ih h
    · rw [if_neg ha] at h
      cases h
      exact Bool.not_eq_true _ ▸ eq_false_of_ne_true ha

/-- Uppercasing yields the empty string only on the empty string. -/
theorem pyUpper_eq_nil_iff {s : Str} : pyUpper s = [] ↔ s = [] := by
  simp [pyUpper]

/-- Uppercasing a string is idempotent. -/
theorem pyUpper_pyUpper (s : Str) : pyUpper (pyUpper s) = pyUpper s := by
  simp only [pyUpper, List.map_map]
  exact List.map_congr_left fun a _ => toUpper_toUpper a

/-- Stripping commutes with uppercasing. -/
theorem pyStrip_pyUpper (s : Str) : pyStrip (pyUpper s) = pyUpper (pyStrip s) := by
  have hws : (Char.isWhitespace ∘ Char.toUpper) = Char.isWhitespace :=
    funext toUpper_isWhitespace
  simp only [pyStrip, stripLeft, pyUpper, List.dropWhile_map, hws,
    ← List.map_reverse]

/-- Characters of the stripped string come from the original string. -/
theorem mem_of_mem_pyStrip {c : Char} {s : Str} (h : c ∈ pyStrip s) : c ∈ s := by
  unfold pyStrip stripLeft at h
  rw [List.mem_reverse] at h
  have h2 := (List.dropWhile_suffix (l := (List.dropWhile Char.isWhitespace s).reverse)
    Char.isWhitespace).sublist.subset h
  rw [List.mem_reverse] at h2
  exact (List.dropWhile_suffix Char.isWhitespace).sublist.subset h2

/-- The stripped string is a prefix of the left-stripped string. -/
theorem pyStrip_isPre (s : Str) : pyStrip s <+: stripLeft s := by
  rw [← List.reverse_suffix]
  unfold pyStrip
  rw [List.reverse_reverse]
  exact List.dropWhile_suffix Char.isWhitespace

/-- Stripping a string twice is the same as stripping it once. -/
theorem pyStrip_pyStrip (s : Str) : pyStrip (pyStrip s) = pyStrip s := by
  have hfix : stripLeft (pyStrip s) = pyStrip s := by
    cases hp : pyStrip s with
    | nil => rfl
    | cons c t =>
      obtain ⟨r, hr⟩ := pyStrip_isPre s
      rw [hp] at hr
      have hc : Char.isWhitespace c = false := dropWhile_head_false hr.symm
      simp [stripLeft, List.dropWhile_cons, hc]
  have h1 : (pyStrip s).reverse = (stripLeft s).reverse.dropWhile Char.isWhitespace := by
    unfold pyStrip
    rw [List.reverse_reverse]
  calc pyStrip (pyStrip s)
      = ((stripLeft (pyStrip s)).reverse.dropWhile Char.isWhitespace).reverse := rfl
    _ = ((pyStrip s).reverse.dropWhile Char.isWhitespace).reverse := by rw [hfix]
    _ = (((stripLeft s).reverse.dropWhile Char.isWhitespace).dropWhile
          Char.isWhitespace).reverse := by rw [h1]
    _ = ((stripLeft s).reverse.dropWhile Char.isWhitespace).reverse := by
          rw [dropWhile_idem]
    _ = pyStrip s := rfl

/-! ## Splitting and joining facts -/

/-- Splitting always yields at least one segment. -/
theorem splitOnChar_ne_nil (sep : Char) (s : Str) : splitOnChar sep s ≠ [] := by
  cases s with
  | nil => simp [splitOnChar]
  | cons c rest =>
    unfold splitOnChar
    by_cases h : c = sep
    · simp [h]
    · rw [if_neg h]
      cases splitOnChar sep rest <;> simp

/-- No segment produced by splitting contains the separator. -/
theorem splitOnChar_no_sep {sep : Char} {s : Str} :
    ∀ t ∈ splitOnChar sep s, sep ∉ t := by
  induction s with
  | nil =>
    intro t ht
    simp [splitOnChar] at ht
    simp [ht]
  | cons c rest ih =>
    intro t ht
    unfold splitOnChar at ht
    by_cases h : c = sep
    · rw [if_pos h] at ht
      cases ht with
      | head => simp
      | tail _ hm => exact ih t hm
    · rw [if_neg h] at ht
      cases hr : splitOnChar sep rest with
      | nil => exact absurd hr (splitOnChar_ne_nil sep rest)
      | cons t0 ts =>
        rw [hr] at ht
        cases ht with
        | head =>
          intro hm
          cases hm with
          | head => exact h rfl
          | tail _ hm2 => exact ih t0 (hr ▸ List.mem_cons_self t0 ts) hm2
        | tail _ hm => exact ih t (hr ▸ List.mem_cons_of_mem t0 hm)

/-- Unfolding equation of `splitOnChar` at a non-separator head. -/
theorem splitOnChar_cons_ne {sep c : Char} (rest : Str) (h : ¬c = sep) :
    splitOnChar sep (c :: rest) =
      match splitOnChar sep rest with
      | [] => [[c]]
      | t :: ts => (c :: t) :: ts := by
  rw [splitOnChar, if_neg h]

/-- Splitting a separator-free string yields that single segment. -/
theorem splitOnChar_of_no_sep {sep : Char} {s : Str} (h : sep ∉ s) :
    splitOnChar sep s = [s] := by
  induction s with
  | nil => rfl
  | cons c rest ih =>
    have hc : ¬c = sep := fun he => h (by subst he; exact List.mem_cons_self _ _)
    have hr : sep ∉ rest := fun hm => h (List.mem_cons_of_mem c hm)
    rw [splitOnChar_cons_ne rest hc, ih hr]

/-- Splitting distributes over a separator occurrence after a
separator-free block. -/
theorem splitOnChar_append {sep : Char} {x : Str} (s : Str) (h : sep ∉ x) :
    splitOnChar sep (x ++ sep :: s) = x :: splitOnChar sep s := by
  induction x with
  | nil =>
    show splitOnChar sep (sep :: s) = [] :: splitOnChar sep s
    rw [splitOnChar, if_pos rfl]
  | cons c rest ih =>
    have hc : ¬c = sep := fun he => h (by subst he; exact List.mem_cons_self _ _)
    have hr : sep ∉ rest := fun hm => h (List.mem_cons_of_mem c hm)
    show splitOnChar sep (c :: (rest ++ sep :: s)) = (c :: rest) :: splitOnChar sep s
    rw [splitOnChar_cons_ne _ hc, ih hr]

/-- Splitting the join of separator-free tokens recovers the tokens. -/
theorem splitOnChar_joinOnChar {sep : Char} :
    ∀ {toks : List Str}, toks ≠ [] → (∀ t ∈ toks, sep ∉ t) →
      splitOnChar sep (joinOnChar sep toks) = toks
  | [], h, _ => absurd rfl h
  | [t], _, hf => by
    rw [joinOnChar]
    exact splitOnChar_of_no_sep (hf t (List.mem_cons_self t []))
  | t :: t2 :: ts, _, hf => by
    rw [joinOnChar]
    rw [splitOnChar_append _ (hf t (List.mem_cons_self t (t2 :: ts)))]
    rw [splitOnChar_joinOnChar (List.cons_ne_nil t2 ts)
      (fun u hu => hf u (List.mem_cons_of_mem t hu))]

/-- Joining a list whose head token is non-empty yields a non-empty string. -/
theorem joinOnChar_ne_nil {sep : Char} {t : Str} {ts : List Str} (h : t ≠ []) :
    joinOnChar sep (t :: ts) ≠ [] := by
  cases ts with
  | nil => exact h
  | cons t2 ts2 =>
    rw [joinOnChar]
    cases t with
    | nil => exact absurd rfl h
    | cons c r => simp

/-! ## Ticker-parser facts -/

/-- Refinement of the ticker parser against the spec's description: the
output is the filtered-then-mapped and the mapped-then-filtered form alike.
-/
theorem parse_tickers_eq_spec (s : Str) : parse_tickers s = specTickerTokens s := by
  by_cases hs : s = []
  · subst hs; rfl
  · unfold parse_tickers specTickerTokens
    rw [if_neg hs, List.filter_map]
    congr 1
    apply List.filter_congr
    intro t _
    have h : pyStrip t ≠ [] ↔ pyUpper (pyStrip t) ≠ [] := by
      simp [Ne, pyUpper_eq_nil_iff]
    simp only [Function.comp]
    exact decide_eq_decide.mpr h

/-- Every emitted ticker token is non-empty, comma-free, and fixed by both
stripping and uppercasing. -/
theorem parse_tickers_token_facts {s : Str} :
    ∀ x ∈ parse_tickers s,
      x ≠ [] ∧ ',' ∉ x ∧ pyStrip x = x ∧ pyUpper x = x := by
  intro x hx
  by_cases hs : s = []
  · subst hs; simp [parse_tickers] at hx
  · unfold parse_tickers at hx
    rw [if_neg hs] at hx
    rw [List.mem_map] at hx
    obtain ⟨r, hr, hxr⟩ := hx
    rw [List.mem_filter] at hr
    obtain ⟨hrs, hrne⟩ := hr
    rw [decide_eq_true_eq] at hrne
    subst hxr
    refine ⟨?_, ?_, ?_, pyUpper_pyUpper _⟩
    · rw [Ne, pyUpper_eq_nil_iff]
      exact hrne
    · intro hm
      rw [pyUpper, List.mem_map] at hm
      obtain ⟨d, hd, hdu⟩ := hm
      by_cases hdc : d = ','
      · subst hdc
        exact splitOnChar_no_sep r hrs (mem_of_mem_pyStrip hd)
      · exact toUpper_ne_comma hdc hdu
    · rw [pyStrip_pyUpper, pyStrip_pyStrip]

/-- Re-parsing the comma-join of a parse output returns that output. -/
theorem parse_tickers_rejoin {s : Str} :
    parse_tickers (joinOnChar ',' (parse_tickers s)) = parse_tickers s := by
  cases hp : parse_tickers s with
  | nil => rfl
  | cons t ts =>
    have hfacts := parse_tickers_token_facts (s := s)
    rw [hp] at hfacts
    have hne : joinOnChar ',' (t :: ts) ≠ [] :=
      joinOnChar_ne_nil (hfacts t (List.mem_cons_self t ts)).1
    unfold parse_tickers
    rw [if_neg hne]
    rw [splitOnChar_joinOnChar (List.cons_ne_nil t ts)
      (fun u hu => (hfacts u hu).2.1)]
    rw [List.filter_eq_self.mpr ?keep]
    case keep =>
      intro a ha
      rw [decide_eq_true_eq, (hfacts a ha).2.2.1]
      exact (hfacts a ha).1
    rw [List.map_congr_left
      (fun a ha => by rw [(hfacts a ha).2.2.1, (hfacts a ha).2.2.2])]
    exact List.map_id _

/-! ## Normalizer facts -/

/-- Header removal only discards rows. -/
theorem mem_of_mem_deheadRows {m : ColMap} {rows : List NRow} {r : NRow}
    (h : r ∈ deheadRows m rows) : r ∈ rows := by
  unfold deheadRows at h
  by_cases hm : m.ticker = none
  · rw [if_pos hm] at h; exact h
  · rw [if_neg hm] at h; exact (List.mem_filter.mp h).1

/-- Rows produced by selection carry the uppercased queried symbol. -/
theorem stock_of_mem_selectRows {t : RawTable} {m : ColMap} {symbol : Str}
    {r : NRow} (h : r ∈ selectRows t m symbol) : r.stock = pyUpper symbol := by
  unfold selectRows at h
  rw [List.mem_map] at h
  obtain ⟨rr, _, he⟩ := h
  subst he
  rfl

/-- With no identified `Ticker` column, selection leaves the ticker field
absent in every row. -/
theorem ticker_none_of_mem_selectRows {t : RawTable} {m : ColMap}
    {symbol : Str} {r : NRow} (hm : m.ticker = none)
    (h : r ∈ selectRows t m symbol) : r.ticker = none := by
  unfold selectRows at h
  rw [List.mem_map] at h
  obtain ⟨rr, _, he⟩ := h
  subst he
  simp [cellAt, hm]

/-- Every row of a successful normalization is the cleanup of a row that
survived selection and header removal. -/
theorem normalizeTable_mem_shape {t : RawTable} {symbol : Str}
    {rows : List NRow} {r : NRow}
    (h : normalizeTable t symbol = some rows) (hr : r ∈ rows) :
    ∃ r0 ∈ deheadRows (matchColumns t.columns)
        (selectRows t (matchColumns t.columns) symbol),
      r = { r0 with
            expense := r0.expense.map pyStrip
            weighting := r0.weighting.map pyStrip } := by
  unfold normalizeTable at h
  by_cases hk : keepRealCols (matchColumns t.columns) = []
  · simp [hk] at h
  · simp only [hk, if_neg, if_false] at h
    injection h with h
    subst h
    unfold cleanRows at hr
    rw [List.mem_map] at hr
    obtain ⟨r0, hr0, he⟩ := hr
    exact ⟨r0, hr0, he.symm⟩

/-- Every row of a successful normalization carries the uppercased queried
symbol in its `stock` field. -/
theorem normalizeTable_stock {t : RawTable} {symbol : Str}
    {rows : List NRow} {r : NRow}
    (h : normalizeTable t symbol = some rows) (hr : r ∈ rows) :
    r.stock = pyUpper symbol := by
  obtain ⟨r0, hr0, he⟩ := normalizeTable_mem_shape h hr
  subst he
  show r0.stock = pyUpper symbol
  exact stock_of_mem_selectRows (mem_of_mem_deheadRows hr0)

/-- No row of a successful normalization has a ticker value that
uppercases to the literal header token. -/
theorem normalizeTable_ticker {t : RawTable} {symbol : Str}
    {rows : List NRow} {r : NRow} {v : Str}
    (h : normalizeTable t symbol = some rows) (hr : r ∈ rows)
    (hv : r.ticker = some v) : pyUpper v ≠ "TICKER".data := by
  obtain ⟨r0, hr0, he⟩ := normalizeTable_mem_shape h hr
  subst he
  have hv0 : r0.ticker = some v := hv
  by_cases hm : (matchColumns t.columns).ticker = none
  · have := ticker_none_of_mem_selectRows hm (mem_of_mem_deheadRows hr0)
    rw [this] at hv0
    exact absurd hv0 (by simp)
  · unfold deheadRows at hr0
    rw [if_neg hm] at hr0
    have hkeep := (List.mem_filter.mp hr0).2
    rw [hv0] at hkeep
    unfold tickerRowKeep at hkeep
    rw [decide_eq_true_eq] at hkeep
    exact hkeep

/-- Every present weighting value in a successful normalization is fixed by
stripping: it is whitespace-stripped display text. -/
theorem normalizeTable_weight_stripped {t : RawTable} {symbol : Str}
    {rows : List NRow} {r : NRow} {w : Str}
    (h : normalizeTable t symbol = some rows) (hr : r ∈ rows)
    (hw : r.weighting = some w) : pyStrip w = w := by
  obtain ⟨r0, hr0, he⟩ := normalizeTable_mem_shape h hr
  subst he
  have hw0 : r0.weighting.map pyStrip = some w := hw
  cases hv : r0.weighting with
  | none => rw [hv] at hw0; exact absurd hw0 (by simp)
  | some w0 =>
    rw [hv] at hw0
    injection hw0 with hw0
    rw [← hw0]
    exact pyStrip_pyStrip w0

/-! ## Adapter and consolidation facts -/

/-- Every row returned by the page-table adapter carries the uppercased
queried symbol. -/
theorem adapter_row_stock {http : Str → HttpResult} {s : Str} {r : NRow}
    (hr : r ∈ (get_stock_etf_exposure_etfdb http s).2) : r.stock = pyUpper s := by
  unfold get_stock_etf_exposure_etfdb at hr
  cases hh : http s with
  | failure msg => rw [hh] at hr; simp at hr
  | response status tables =>
    rw [hh] at hr
    by_cases hst : raiseForStatus status = true
    · simp [hst] at hr
    · simp only [hst, Bool.false_eq_true, if_false] at hr
      cases tables with
      | none => simp at hr
      | some ts =>
        cases ts with
        | nil => simp at hr
        | cons t rest =>
          cases hn : normalizeTable t s with
          | none => simp [hn] at hr
          | some rows =>
            simp only [hn] at hr
            exact normalizeTable_stock hn hr

/-- Every row returned by the page-table adapter comes from normalizing the
first parsed table of a successfully fetched page. -/
theorem adapter_row_normalized {http : Str → HttpResult} {s : Str} {r : NRow}
    (hr : r ∈ (get_stock_etf_exposure_etfdb http s).2) :
    ∃ status t rest rows, http s = .response status (some (t :: rest))
      ∧ raiseForStatus status = false
      ∧ normalizeTable t s = some rows ∧ r ∈ rows := by
  unfold get_stock_etf_exposure_etfdb at hr
  cases hh : http s with
  | failure msg => rw [hh] at hr; simp at hr
  | response status tables =>
    rw [hh] at hr
    by_cases hst : raiseForStatus status = true
    · simp [hst] at hr
    · simp only [hst, Bool.false_eq_true, if_false] at hr
      cases tables with
      | none => simp at hr
      | some ts =>
        cases ts with
        | nil => simp at hr
        | cons t rest =>
          cases hn : normalizeTable t s with
          | none => simp [hn] at hr
          | some rows =>
            simp only [hn] at hr
            exact ⟨status, t, rest, rows, rfl,
              eq_false_of_ne_true hst, hn, hr⟩

/-- The consolidated rows are the flattening of the per-symbol adapter
results in input order. -/
theorem build_exposure_rows (http : Str → HttpResult) (stocks : List Str) :
    (build_exposure http stocks).2
      = (stocks.map fun s => (get_stock_etf_exposure_etfdb http s).2).flatten := by
  induction stocks with
  | nil => rfl
  | cons s rest ih => simp [build_exposure, ih]

/-! ## String-order facts -/

/-- The code-point order on strings is trichotomous. -/
theorem strLt_trichotomy (a b : Str) :
    strLt a b = true ∨ a = b ∨ strLt b a = true := by
  induction a generalizing b with
  | nil => cases b <;> simp [strLt]
  | cons c as ih =>
    cases b with
    | nil => simp [strLt]
    | cons d bs =>
      rcases Nat.lt_trichotomy c.toNat d.toNat with h | h | h
      · left; simp [strLt, h]
      · have hcd : c = d := char_toNat_inj h
        subst hcd
        rcases ih bs with h2 | h2 | h2
        · left; simp [strLt, h2]
        · right; left; rw [h2]
        · right; right; simp [strLt, h2]
      · right; right; simp [strLt, h]

/-- The code-point order on strings is transitive. -/
theorem strLt_trans {a b c : Str} (h1 : strLt a b = true)
    (h2 : strLt b c = true) : strLt a c = true := by
  induction a generalizing b c with
  | nil =>
    cases c with
    | nil =>
      cases b with
      | nil => exact h2
      | cons d bs => simp [strLt] at h2
    | cons e cs => simp [strLt]
  | cons d as ih =>
    cases b with
    | nil => simp [strLt] at h1
    | cons e bs =>
      cases c with
      | nil => simp [strLt] at h2
      | cons f cs =>
        simp only [strLt, Bool.or_eq_true, Bool.and_eq_true,
          decide_eq_true_eq] at h1 h2 ⊢
        rcases h1 with h1 | ⟨h1e, h1r⟩
        · rcases h2 with h2 | ⟨h2e, h2r⟩
          · exact Or.inl (Nat.lt_trans h1 h2)
          · exact Or.inl (h2e ▸ h1)
        · rcases h2 with h2 | ⟨h2e, h2r⟩
          · exact Or.inl (h1e ▸ h2)
          · exact Or.inr ⟨h1e.trans h2e, ih h1r h2r⟩

/-! ## Concrete oracles used by witnesses and counterexamples -/

/-- Oracle whose response carries a 304 status and a parseable holdings
table, for exercising the not-2xx-but-not-4xx/5xx path. -/
def http304 : Str → HttpResult := fun _ =>
  .response 304 (some [⟨["Ticker".data, "Weighting".data],
    [["ARKK".data, "5.2%".data]]⟩])

/-- Oracle returning a different one-row table for the symbol ZZ than for
every other symbol. -/
def httpBySymbol : Str → HttpResult := fun s =>
  if s = "ZZ".data then .response 200 (some [⟨["Ticker".data], [["SPY".data]]⟩])
  else .response 200 (some [⟨["Ticker".data], [["QQQ".data]]⟩])

/-- Oracle returning a fixed one-row table for every symbol. -/
def httpFixed : Str → HttpResult := fun _ =>
  .response 200 (some [⟨["Ticker".data], [["SPY".data]]⟩])

/-- Oracle on which every fetch raises. -/
def httpDown : Str → HttpResult := fun _ => .failure "conn".data

/-! ## Claims -/

/-- C1 (amended): for every symbol, if the HTTP GET raises a transport
error, or the response status is a 4xx/5xx (what `raise_for_status` treats
as an error), the adapter reports a warning and returns an empty result;
the embedding is a total function, so no exception passes the boundary.
(The original claim said this for every non-success status; statuses
outside 2xx but below 400 instead proceed to parsing, see the
counterexample.) -/
theorem c1_adapter_error_paths (http : Str → HttpResult) (symbol : Str) :
    (∀ msg, http symbol = .failure msg →
      get_stock_etf_exposure_etfdb http symbol = ([.fetchFailed symbol msg], []))
    ∧ (∀ status tables, http symbol = .response status tables →
        400 ≤ status → status < 600 →
        get_stock_etf_exposure_etfdb http symbol
          = ([.httpStatusError symbol status], [])) := by
  constructor
  · intro msg hm
    unfold get_stock_etf_exposure_etfdb
    rw [hm]
  · intro status tables hm h4 h6
    unfold get_stock_etf_exposure_etfdb
    rw [hm]
    have hrs : raiseForStatus status = true := by
      unfold raiseForStatus
      rw [Bool.and_eq_true]
      exact ⟨decide_eq_true h4, decide_eq_true h6⟩
    simp [hrs]

/-- C1 witness: the transport-error path and the 503 path at concrete
inputs. -/
theorem c1_adapter_error_paths_witness :
    get_stock_etf_exposure_etfdb httpDown "AAPL".data
      = ([.fetchFailed "AAPL".data "conn".data], [])
    ∧ get_stock_etf_exposure_etfdb (fun _ => .response 503 none) "AAPL".data
      = ([.httpStatusError "AAPL".data 503], []) :=
  ⟨(c1_adapter_error_paths httpDown "AAPL".data).1 "conn".data rfl,
   (c1_adapter_error_paths (fun _ => .response 503 none) "AAPL".data).2
     503 none rfl (by decide) (by decide)⟩

/-- C1 counterexample: a 304 response is not a success status, yet the
adapter emits no warning and returns a non-empty result, because
`raise_for_status` only raises for 4xx/5xx. -/
theorem c1_counterexample :
    ¬specIsSuccessStatus 304
    ∧ (get_stock_etf_exposure_etfdb http304 "AAPL".data).1 = []
    ∧ (get_stock_etf_exposure_etfdb http304 "AAPL".data).2 ≠ [] := by decide

/-- C2: with no filtering, consolidation returns the concatenation of the
per-subject results (so its row count is the sum of the per-subject row
counts), and when every per-subject result is empty it returns an empty
relation and the caller renders the no-usable-results warning state rather
than raising. -/
theorem c2_consolidation_concat (http : Str → HttpResult) (stocks : List Str) :
    (build_exposure http stocks).2
        = (stocks.map fun s => (get_stock_etf_exposure_etfdb http s).2).flatten
    ∧ (build_exposure http stocks).2.length
        = (stocks.map fun s => (get_stock_etf_exposure_etfdb http s).2.length).sum
    ∧ ((∀ s ∈ stocks, (get_stock_etf_exposure_etfdb http s).2 = []) →
        (build_exposure http stocks).2 = []
        ∧ (stocks ≠ [] →
            run_scan http stocks
              = .noUsableResults (build_exposure http stocks).1)) := by
  refine ⟨build_exposure_rows http stocks, ?_, ?_⟩
  · rw [build_exposure_rows, List.length_flatten, List.map_map]
    rfl
  · intro hall
    have hempty : (build_exposure http stocks).2 = [] := by
      rw [build_exposure_rows]
      rw [List.flatten_eq_nil_iff]
      intro l hl
      rw [List.mem_map] at hl
      obtain ⟨s, hs, he⟩ := hl
      rw [← he]
      exact hall s hs
    refine ⟨hempty, fun hne => ?_⟩
    unfold run_scan
    rw [if_neg hne]
    show (if (build_exposure http stocks).2 = [] then _ else _) = _
    rw [if_pos hempty]

/-- C2 witness: one symbol whose fetch fails; the relation is empty and the
handler reports the no-results state. -/
theorem c2_consolidation_concat_witness :
    (build_exposure httpDown ["AAPL".data]).2 = []
    ∧ run_scan httpDown ["AAPL".data]
        = .noUsableResults (build_exposure httpDown ["AAPL".data]).1 := by
  have h := (c2_consolidation_concat httpDown ["AAPL".data]).2.2 (by decide)
  exact ⟨h.1, h.2 (by decide)⟩

/-- C3: no record emitted by the normalizer has a ticker value that
case-insensitively equals the literal string "ticker"; repeated header-row
artifacts are dropped. -/
theorem c3_no_header_artifact (t : RawTable) (symbol : Str) (rows : List NRow)
    (h : normalizeTable t symbol = some rows) :
    ∀ r ∈ rows, ∀ v, r.ticker = some v → ¬pyUpper v = pyUpper "ticker".data := by
  intro r hr v hv
  have hu : pyUpper "ticker".data = "TICKER".data := by decide
  rw [hu]
  exact normalizeTable_ticker h hr hv

/-- C3 witness: a concrete table containing a repeated header row
normalizes to rows whose surviving ticker value is not the header token. -/
theorem c3_no_header_artifact_witness :
    ¬pyUpper "ARKK".data = pyUpper "ticker".data :=
  c3_no_header_artifact
    ⟨["Ticker".data, "Weighting".data],
      [["ARKK".data, "5.2%".data], ["TICKER".data, "Weighting".data]]⟩
    "AAPL".data
    [⟨"AAPL".data, some "ARKK".data, none, none, none, some "5.2%".data⟩]
    (by decide)
    ⟨"AAPL".data, some "ARKK".data, none, none, none, some "5.2%".data⟩
    (by decide) "ARKK".data rfl

/-- C4: when no canonical target field matches any source column of the
first parsed table, the adapter yields an empty result together with the
no-identifiable-columns warning; the embedding is total, so no exception
reaches the caller. -/
theorem c4_no_columns_empty_warning (http : Str → HttpResult) (symbol : Str)
    (status : Nat) (t : RawTable) (rest : List RawTable)
    (hhttp : http symbol = .response status (some (t :: rest)))
    (hst : raiseForStatus status = false)
    (hmatch : keepRealCols (matchColumns t.columns) = []) :
    get_stock_etf_exposure_etfdb http symbol = ([.noColumns symbol], []) := by
  unfold get_stock_etf_exposure_etfdb
  rw [hhttp]
  simp [hst, normalizeTable, hmatch]

/-- C4 witness: a table whose only column is unrecognizable. -/
theorem c4_no_columns_empty_warning_witness :
    get_stock_etf_exposure_etfdb
      (fun _ => .response 200 (some [⟨["Foo".data], [["x".data]]⟩]))
      "AAPL".data
      = ([.noColumns "AAPL".data], []) :=
  c4_no_columns_empty_warning
    (fun _ => .response 200 (some [⟨["Foo".data], [["x".data]]⟩]))
    "AAPL".data 200 ⟨["Foo".data], [["x".data]]⟩ [] rfl rfl (by decide)

/-- C5: the ticker parser returns the ordered sequence of non-empty,
whitespace-trimmed, uppercased comma-separated tokens of the input, and
returns the empty sequence when the input is empty or every segment strips
to nothing. -/
theorem c5_parse_tickers_spec (s : Str) :
    parse_tickers s = specTickerTokens s
    ∧ ((∀ t ∈ splitOnChar ',' s, pyStrip t = []) → parse_tickers s = []) := by
  refine ⟨parse_tickers_eq_spec s, fun h => ?_⟩
  rw [parse_tickers_eq_spec]
  unfold specTickerTokens
  rw [List.filter_eq_nil_iff]
  intro a ha
  rw [List.mem_map] at ha
  obtain ⟨t, ht, he⟩ := ha
  rw [decide_eq_true_eq]
  rw [← he, h t ht]
  simp [pyUpper]

/-- C5 witness: a whitespace-only input parses to the empty sequence and
agrees with the spec-side description. -/
theorem c5_parse_tickers_spec_witness :
    parse_tickers " , ".data = specTickerTokens " , ".data
    ∧ parse_tickers " , ".data = [] :=
  ⟨(c5_parse_tickers_spec " , ".data).1,
   (c5_parse_tickers_spec " , ".data).2 (by decide)⟩

/-- C6 (amended): the consolidator has no sort step; the consolidated
relation is exactly the concatenation of the per-symbol results in the
order the symbols were supplied, each block keeping its own row order.
(The original claim said the relation is sorted by subject ascending with
weight descending; see the counterexample.) -/
theorem c6_no_sort_concatenation_order (http : Str → HttpResult)
    (stocks : List Str) :
    (build_exposure http stocks).2
      = (stocks.map fun s => (get_stock_etf_exposure_etfdb http s).2).flatten :=
  build_exposure_rows http stocks

/-- C6 counterexample: supplying ZZ before AA leaves the consolidated
relation with subject ZZ before subject AA, so it is not sorted by subject
ascending. -/
theorem c6_counterexample :
    (build_exposure httpBySymbol ["ZZ".data, "AA".data]).2.map NRow.stock
        = ["ZZ".data, "AA".data]
    ∧ strLt "AA".data "ZZ".data = true
    ∧ ¬List.Pairwise (fun a b : NRow => strLt b.stock a.stock = false)
        (build_exposure httpBySymbol ["ZZ".data, "AA".data]).2 := by decide

/-- C7 (amended): a present weighting value in a normalized record is the
source cell's display text with surrounding whitespace stripped; no numeric
conversion or range check is applied. (The original claim said the value is
a floating-point number in [0,100]; see the counterexample.) -/
theorem c7_weight_text_stripped (t : RawTable) (symbol : Str)
    (rows : List NRow) (r : NRow) (w : Str)
    (h : normalizeTable t symbol = some rows) (hr : r ∈ rows)
    (hw : r.weighting = some w) : pyStrip w = w :=
  normalizeTable_weight_stripped h hr hw

/-- C7 witness: a padded weighting cell comes out stripped and
strip-fixed. -/
theorem c7_weight_text_stripped_witness :
    pyStrip "5.2%".data = "5.2%".data :=
  c7_weight_text_stripped
    ⟨["Ticker".data, "Weighting".data], [["ARKK".data, " 5.2% ".data]]⟩
    "AAPL".data
    [⟨"AAPL".data, some "ARKK".data, none, none, none, some "5.2%".data⟩]
    ⟨"AAPL".data, some "ARKK".data, none, none, none, some "5.2%".data⟩
    "5.2%".data (by decide) (by decide) rfl

/-- C7 counterexample: a table whose weighting cell reads "N/A" normalizes
to a record whose weighting value denotes no floating-point number in
[0,100] at all — the field holds unvalidated display text. -/
theorem c7_counterexample :
    normalizeTable
        ⟨["Ticker".data, "Weighting".data], [["ARKK".data, "N/A".data]]⟩
        "AAPL".data
      = some [⟨"AAPL".data, some "ARKK".data, none, none, none,
          some "N/A".data⟩]
    ∧ specDenotesWeightInRange "N/A".data = false := by decide

/-- C8: the ticker parser is idempotent under re-parsing the comma-join of
its own output. -/
theorem c8_parse_tickers_idempotent (s : Str) :
    parse_tickers (joinOnChar ',' (parse_tickers s)) = parse_tickers s :=
  parse_tickers_rejoin

/-- C9: merging an uploaded CSV `symbol` column with the manual list yields
the lexicographically sorted, duplicate-free enumeration of the union of
the manual tickers and the uppercased (never whitespace-trimmed) CSV
symbols; the manual entry order is discarded. -/
theorem c9_upload_merge_sorted_dedup (manual csv : List Str) :
    List.Sorted strLe (mergeUpload manual csv)
    ∧ (mergeUpload manual csv).Nodup
    ∧ ∀ x, x ∈ mergeUpload manual csv
        ↔ (x ∈ manual ∨ ∃ c ∈ csv, x = pyUpper c) := by
  haveI : IsTotal Str strLe := ⟨fun a b => by
    rcases strLt_trichotomy a b with h | h | h
    · exact Or.inl (Or.inl h)
    · exact Or.inl (Or.inr h)
    · exact Or.inr (Or.inl h)⟩
  haveI : IsTrans Str strLe := ⟨fun a b c h1 h2 => by
    rcases h1 with h1 | h1
    · rcases h2 with h2 | h2
      · exact Or.inl (strLt_trans h1 h2)
      · exact Or.inl (h2 ▸ h1)
    · rw [h1]; exact h2⟩
  refine ⟨List.sorted_insertionSort strLe _,
    (List.perm_insertionSort strLe _).nodup_iff.mpr (List.nodup_dedup _), ?_⟩
  intro x
  unfold mergeUpload pySortedSet
  rw [(List.perm_insertionSort strLe _).mem_iff, List.mem_dedup,
    List.mem_append, List.mem_map]
  constructor
  · rintro (hm | ⟨c, hc, he⟩)
    · exact Or.inl hm
    · exact Or.inr ⟨c, hc, he.symm⟩
  · rintro (hm | ⟨c, hc, he⟩)
    · exact Or.inl hm
    · exact Or.inr ⟨c, hc, he.symm⟩

/-- C10: consolidation preserves input order — the consolidated relation is
the per-subject blocks in supplied order, every record of a block carrying
that block's uppercased subject, and each block keeps the row order of its
normalized table. -/
theorem c10_order_preserved (http : Str → HttpResult) (stocks : List Str) :
    (build_exposure http stocks).2
      = (stocks.map fun s => (get_stock_etf_exposure_etfdb http s).2).flatten
    ∧ ∀ s r, r ∈ (get_stock_etf_exposure_etfdb http s).2 → r.stock = pyUpper s :=
  ⟨build_exposure_rows http stocks, fun _ _ hr => adapter_row_stock hr⟩

/-- C10 witness: concrete two-symbol scan whose relation is the
concatenation of the per-symbol blocks, each row carrying its uppercased
subject. -/
theorem c10_order_preserved_witness :
    (build_exposure httpFixed ["aapl".data, "msft".data]).2
      = (["aapl".data, "msft".data].map
          fun s => (get_stock_etf_exposure_etfdb httpFixed s).2).flatten
    ∧ (⟨"AAPL".data, some "SPY".data, none, none, none, none⟩ : NRow).stock
        = pyUpper "aapl".data :=
  ⟨(c10_order_preserved httpFixed ["aapl".data, "msft".data]).1,
   (c10_order_preserved httpFixed ["aapl".data, "msft".data]).2
     "aapl".data
     ⟨"AAPL".data, some "SPY".data, none, none, none, none⟩ (by decide)⟩
